import Mathlib

/-!
Verification of the forecast-evaluation core of GewitterGefahr
(`gewittergefahr/gg_utils/model_evaluation.py`).

Modelling conventions:

* Python/numpy floats are modelled by rationals; IEEE-754 special values
  produced by numpy arithmetic are modelled by `NFloat` (a finite rational,
  `posInf`, `negInf`, or `nan`).  Signed zero is not modelled: every zero
  denominator reached in the embedded code arises from non-negative
  arithmetic, hence is `+0.0` in the source.
* A Python-level `try ... except ZeroDivisionError` around a division of
  built-in ints/floats maps to an explicit zero test on the denominator.
  Divisions whose operands are numpy scalars never raise
  `ZeroDivisionError`; they follow IEEE-754 semantics (`NFloat.div`).
* numpy arrays are modelled by lists; `numpy.full(...)` followed by a fill
  loop is modelled by `List.map` over the index range.
* Functions whose input-validation asserts (`error_checking.*`) can fail
  return `Option`/guarded values: `none` models the Python call raising.
  Where noted, per-element validation loops are hoisted to a single guard;
  this preserves the raise/no-raise behaviour and the returned value.
* The bootstrap sampler (`bootstrapping.draw_sample`) is a random source;
  it is externalized: each bootstrap wrapper takes the list of index
  samples drawn, one per iteration (each a with-replacement sample of
  `0 ... N-1` of length `N`, which `draw_sample` guarantees).
-/

namespace ModelEvaluation

/-- Model of a numpy float64 value: a finite rational, an infinity, or NaN. -/
inductive NFloat where
  | nan
  | negInf
  | posInf
  | finite (q : ℚ)
deriving DecidableEq

namespace NFloat

/-- IEEE-754 negation. -/
def neg : NFloat → NFloat
  | nan => nan
  | negInf => posInf
  | posInf => negInf
  | finite q => finite (-q)

/-- IEEE-754 addition (NaN propagates; opposite infinities give NaN). -/
def add : NFloat → NFloat → NFloat
  | nan, _ => nan
  | _, nan => nan
  | posInf, negInf => nan
  | negInf, posInf => nan
  | posInf, _ => posInf
  | _, posInf => posInf
  | negInf, _ => negInf
  | _, negInf => negInf
  | finite a, finite b => finite (a + b)

/-- IEEE-754 subtraction, as addition of the negation. -/
def sub (a b : NFloat) : NFloat := add a (neg b)

/-- IEEE-754 multiplication (NaN propagates; zero times infinity is NaN). -/
def mul : NFloat → NFloat → NFloat
  | nan, _ => nan
  | _, nan => nan
  | posInf, posInf => posInf
  | posInf, negInf => negInf
  | negInf, posInf => negInf
  | negInf, negInf => posInf
  | posInf, finite q => if 0 < q then posInf else if q < 0 then negInf else nan
  | finite q, posInf => if 0 < q then posInf else if q < 0 then negInf else nan
  | negInf, finite q => if 0 < q then negInf else if q < 0 then posInf else nan
  | finite q, negInf => if 0 < q then negInf else if q < 0 then posInf else nan
  | finite a, finite b => finite (a * b)

/-- IEEE-754 division as numpy performs it: never raises; a nonzero finite
numerator over (positive) zero gives a signed infinity, zero over zero gives
NaN. -/
def div : NFloat → NFloat → NFloat
  | nan, _ => nan
  | _, nan => nan
  | posInf, posInf => nan
  | posInf, negInf => nan
  | negInf, posInf => nan
  | negInf, negInf => nan
  | posInf, finite q => if 0 ≤ q then posInf else negInf
  | negInf, finite q => if 0 ≤ q then negInf else posInf
  | finite _, posInf => finite 0
  | finite _, negInf => finite 0
  | finite a, finite b =>
      if b = 0 then (if a = 0 then nan else if 0 < a then posInf else negInf)
      else finite (a / b)

/-- Model of numpy `x ** -1` for the values reached in this module
(non-negative finite values, infinities, NaN): the IEEE reciprocal. -/
def inv (a : NFloat) : NFloat := div (finite 1) a

/-- Extracts the rational from a finite value (junk elsewhere). -/
def toQ : NFloat → ℚ
  | finite q => q
  | _ => 0

/-- Validity test used by `error_checking.assert_is_geq_numpy_array 0` plus
`assert_is_leq_numpy_array 1` with `allow_nan=True`: a probability-like
value is a finite rational in the unit interval, or NaN.  Infinities fail
the upper-bound assert, so the source raises on them. -/
def validProb : NFloat → Bool
  | nan => true
  | finite q => decide (0 ≤ q) && decide (q ≤ 1)
  | _ => false

/-- Rank of a value in the descending numpy sort order used by
`numpy.argsort(-pofd)`: +inf first, then finite values (descending), then
-inf, with NaN last (negation keeps NaN, and argsort places NaN at the
end). -/
def descRank : NFloat → ℕ
  | posInf => 0
  | finite _ => 1
  | negInf => 2
  | nan => 3

/-- Descending sort order with NaN last (see `descRank`). -/
def descLe (a b : NFloat) : Bool :=
  match a, b with
  | finite x, finite y => decide (y ≤ x)
  | _, _ => decide (a.descRank ≤ b.descRank)

/-- Rank of a value in the ascending numpy sort order (NaN last). -/
def ascRank : NFloat → ℕ
  | negInf => 0
  | finite _ => 1
  | posInf => 2
  | nan => 3

/-- Ascending sort order with NaN last (see `ascRank`). -/
def ascLe (a b : NFloat) : Bool :=
  match a, b with
  | finite x, finite y => decide (x ≤ y)
  | _, _ => decide (a.ascRank ≤ b.ascRank)

end NFloat

/-- Guard helper: models an `error_checking` assert raising on failure. -/
def ensure (b : Bool) : Option Unit := if b then some () else none

/-- Model of `numpy.mean` on a float vector: NaN for an empty vector. -/
def npMean (l : List ℚ) : NFloat :=
  if l.length = 0 then NFloat.nan else NFloat.finite (l.sum / l.length)

/-- Model of `numpy.nansum`: sums the non-NaN entries (0.0 if none). -/
def nansum (l : List NFloat) : NFloat :=
  (l.filter fun x => !(x == NFloat.nan)).foldl NFloat.add (NFloat.finite 0)

/-- Model of `numpy.nanmean`: mean of the non-NaN entries, NaN if none. -/
def nanmean (l : List NFloat) : NFloat :=
  let xs := l.filter fun x => !(x == NFloat.nan)
  if xs.length = 0 then NFloat.nan
  else NFloat.div (xs.foldl NFloat.add (NFloat.finite 0)) (NFloat.finite xs.length)

/-- Module constant `TOLERANCE = 1e-6`. -/
def TOLERANCE : ℚ := 1 / 1000000

/-- Module constant `MIN_BINARIZATION_THRESHOLD = 0.`. -/
def MIN_BINARIZATION_THRESHOLD : ℚ := 0

/-- Module constant `MAX_BINARIZATION_THRESHOLD = 1. + TOLERANCE`. -/
def MAX_BINARIZATION_THRESHOLD : ℚ := 1 + TOLERANCE

/-- Module constant `MIN_FORECAST_PROB_FOR_XENTROPY = numpy.finfo(float).eps
= 2^-52`. -/
def MIN_FORECAST_PROB_FOR_XENTROPY : ℚ := 1 / 2 ^ 52

/-- Module constant `MAX_FORECAST_PROB_FOR_XENTROPY = 1 - 2^-52`. -/
def MAX_FORECAST_PROB_FOR_XENTROPY : ℚ := 1 - 1 / 2 ^ 52

/-- Contingency table produced by `get_contingency_table` (the
dictionary-as-struct of the source, with the same keys). -/
structure ContingencyTable where
  num_true_positives : ℕ
  num_false_positives : ℕ
  num_false_negatives : ℕ
  num_true_negatives : ℕ
deriving DecidableEq

/-- Validation `_check_forecast_probs_and_observed_labels`: probabilities in
[0,1], labels integers in {0,1}, equal lengths. -/
def _check_forecast_probs_and_observed_labels (forecast_probabilities : List ℚ)
    (observed_labels : List ℕ) : Bool :=
  forecast_probabilities.all (fun p => decide (0 ≤ p) && decide (p ≤ 1))
    && (observed_labels.length == forecast_probabilities.length)
    && observed_labels.all (fun o => decide (o ≤ 1))

/-- Core of `binarize_forecast_probs` (source lines 227-256): label 1 iff
probability >= threshold.  The source's validation asserts (probabilities in
[0,1], threshold in [0, 1+TOLERANCE]) are hoisted into the callers' guards in
this embedding; they raise, and never alter values. -/
def binarize_forecast_probs (forecast_probabilities : List ℚ)
    (binarization_threshold : ℚ) : List ℕ :=
  forecast_probabilities.map (fun p => if binarization_threshold ≤ p then 1 else 0)

/-- Core of `get_contingency_table` (source lines 259-290): exact counts by
logical AND over the paired label vectors.  The label-validation asserts are
hoisted into the callers' guards. -/
def get_contingency_table (forecast_labels observed_labels : List ℕ) :
    ContingencyTable :=
  let pairs := forecast_labels.zip observed_labels
  { num_true_positives := (pairs.filter fun x => x.1 == 1 && x.2 == 1).length
    num_false_positives := (pairs.filter fun x => x.1 == 1 && x.2 == 0).length
    num_false_negatives := (pairs.filter fun x => x.1 == 0 && x.2 == 1).length
    num_true_negatives := (pairs.filter fun x => x.1 == 0 && x.2 == 0).length }

/-- Source `get_pod`: TP/(TP+FN); ZeroDivisionError on the int division is
caught and returns NaN. -/
def get_pod (t : ContingencyTable) : NFloat :=
  if t.num_true_positives + t.num_false_negatives = 0 then NFloat.nan
  else NFloat.finite ((t.num_true_positives : ℚ) /
    ((t.num_true_positives : ℚ) + (t.num_false_negatives : ℚ)))

/-- Source `get_pofd`: FP/(FP+TN), NaN on zero denominator. -/
def get_pofd (t : ContingencyTable) : NFloat :=
  if t.num_false_positives + t.num_true_negatives = 0 then NFloat.nan
  else NFloat.finite ((t.num_false_positives : ℚ) /
    ((t.num_false_positives : ℚ) + (t.num_true_negatives : ℚ)))

/-- Source `get_success_ratio`: TP/(TP+FP), NaN on zero denominator. -/
def get_success_ratio (t : ContingencyTable) : NFloat :=
  if t.num_true_positives + t.num_false_positives = 0 then NFloat.nan
  else NFloat.finite ((t.num_true_positives : ℚ) /
    ((t.num_true_positives : ℚ) + (t.num_false_positives : ℚ)))

/-- Source `get_csi`: TP/(TP+FP+FN), NaN on zero denominator. -/
def get_csi (t : ContingencyTable) : NFloat :=
  if t.num_true_positives + t.num_false_positives + t.num_false_negatives = 0
  then NFloat.nan
  else NFloat.finite ((t.num_true_positives : ℚ) /
    ((t.num_true_positives : ℚ) + (t.num_false_positives : ℚ) +
      (t.num_false_negatives : ℚ)))

/-- Source `get_heidke_score` (lines 466-492): numerator
`2*(TP*TN - FP*FN)` over
`num_positives*num_non_events + num_negatives*num_events`, that is
`(TP+FP)*(TN+FP) + (TN+FN)*(TP+FN)`; ZeroDivisionError (int denominator
zero) is caught and returns NaN. -/
def get_heidke_score (t : ContingencyTable) : NFloat :=
  let numerator : ℤ := 2 * ((t.num_true_positives : ℤ) * t.num_true_negatives -
    (t.num_false_positives : ℤ) * t.num_false_negatives)
  let num_positives : ℕ := t.num_true_positives + t.num_false_positives
  let num_negatives : ℕ := t.num_true_negatives + t.num_false_negatives
  let num_events : ℕ := t.num_true_positives + t.num_false_negatives
  let num_non_events : ℕ := t.num_true_negatives + t.num_false_positives
  if num_positives * num_non_events + num_negatives * num_events = 0 then NFloat.nan
  else NFloat.finite ((numerator : ℚ) /
    ((num_positives * num_non_events + num_negatives * num_events : ℕ) : ℚ))

/-- Heidke formula exactly as the spec sentence states it (for comparison
with the source): numerator `2*(TP*TN - FP*FN)`, denominator
`(TP+FP)*(FN+TN) + (TP+FN)*(FP+TN)`, NaN when that denominator is zero. -/
def heidke_score_spec_formula (t : ContingencyTable) : NFloat :=
  let numerator : ℤ := 2 * ((t.num_true_positives : ℤ) * t.num_true_negatives -
    (t.num_false_positives : ℤ) * t.num_false_negatives)
  let denominator : ℕ :=
    (t.num_true_positives + t.num_false_positives) *
      (t.num_false_negatives + t.num_true_negatives) +
    (t.num_true_positives + t.num_false_negatives) *
      (t.num_false_positives + t.num_true_negatives)
  if denominator = 0 then NFloat.nan
  else NFloat.finite ((numerator : ℚ) / (denominator : ℚ))

/-- Heidke formula with the denominator grouped as the code actually
computes it: `(TP+FP)*(FP+TN) + (TP+FN)*(FN+TN)` (the textbook Heidke
denominator), NaN when it is zero. -/
def heidke_score_amended_formula (t : ContingencyTable) : NFloat :=
  let numerator : ℤ := 2 * ((t.num_true_positives : ℤ) * t.num_true_negatives -
    (t.num_false_positives : ℤ) * t.num_false_negatives)
  let denominator : ℕ :=
    (t.num_true_positives + t.num_false_positives) *
      (t.num_false_positives + t.num_true_negatives) +
    (t.num_true_positives + t.num_false_negatives) *
      (t.num_false_negatives + t.num_true_negatives)
  if denominator = 0 then NFloat.nan
  else NFloat.finite ((numerator : ℚ) / (denominator : ℚ))

/-- Result dictionary of `get_brier_skill_score`, with the source's keys. -/
structure BssDict where
  brier_skill_score : NFloat
  brier_score : NFloat
  reliability : NFloat
  resolution : NFloat
  uncertainty : NFloat
deriving DecidableEq

/-- Source `get_brier_skill_score` (lines 1151-1216).  Inputs are validated
(per-bin values in [0,1] or NaN, non-negative integer counts, climatology in
[0,1]); `none` models the validation raising.  `reliability` and
`resolution` are numpy nansum ratios; `brier_skill_score` is a division of
numpy float64 scalars, so the source's `except ZeroDivisionError` branch is
dead code and the division follows IEEE semantics (`NFloat.div`): the call
never raises, and a zero `uncertainty` yields a signed infinity unless the
numerator is also zero. -/
def get_brier_skill_score (mean_forecast_prob_by_bin mean_observed_label_by_bin :
    List NFloat) (num_examples_by_bin : List ℕ) (climatology : ℚ) :
    Option BssDict :=
  if (mean_forecast_prob_by_bin.all NFloat.validProb
      && mean_observed_label_by_bin.all NFloat.validProb
      && (mean_observed_label_by_bin.length == mean_forecast_prob_by_bin.length)
      && (num_examples_by_bin.length == mean_forecast_prob_by_bin.length)
      && decide (0 ≤ climatology) && decide (climatology ≤ 1)) = true then
    let uncertainty : ℚ := climatology * (1 - climatology)
    let forecast_minus_observed :=
      List.zipWith NFloat.sub mean_forecast_prob_by_bin mean_observed_label_by_bin
    let reliability_terms := List.zipWith
      (fun nb d => NFloat.mul (NFloat.finite (nb : ℚ)) (NFloat.mul d d))
      num_examples_by_bin forecast_minus_observed
    let reliability := NFloat.div (nansum reliability_terms)
      (NFloat.finite ((num_examples_by_bin.sum : ℕ) : ℚ))
    let observed_minus_climo := mean_observed_label_by_bin.map
      (fun ob => NFloat.sub ob (NFloat.finite climatology))
    let resolution_terms := List.zipWith
      (fun nb d => NFloat.mul (NFloat.finite (nb : ℚ)) (NFloat.mul d d))
      num_examples_by_bin observed_minus_climo
    let resolution := NFloat.div (nansum resolution_terms)
      (NFloat.finite ((num_examples_by_bin.sum : ℕ) : ℚ))
    let brier_score := NFloat.sub
      (NFloat.add (NFloat.finite uncertainty) reliability) resolution
    let brier_skill_score := NFloat.div (NFloat.sub resolution reliability)
      (NFloat.finite uncertainty)
    some { brier_skill_score := brier_skill_score
           brier_score := brier_score
           reliability := reliability
           resolution := resolution
           uncertainty := NFloat.finite uncertainty }
  else none

/-- State of the caller's `forecast_probabilities` array after
`get_cross_entropy` (source lines 513-536) returns: the function assigns
`MIN_FORECAST_PROB_FOR_XENTROPY` to every entry below it and
`MAX_FORECAST_PROB_FOR_XENTROPY` to every entry above it, in place, on the
array the caller passed (no copy is made).  `none` models the input
validation raising.  The scalar return value (a mean of base-2 logarithms)
is transcendental and not needed for the frame-effect claim; only the
array's final contents are modelled. -/
def get_cross_entropy_forecast_probs_after (forecast_probabilities : List ℚ)
    (observed_labels : List ℕ) : Option (List ℚ) :=
  if _check_forecast_probs_and_observed_labels forecast_probabilities
      observed_labels then
    some (forecast_probabilities.map (fun p =>
      if p < MIN_FORECAST_PROB_FOR_XENTROPY then MIN_FORECAST_PROB_FOR_XENTROPY
      else if MAX_FORECAST_PROB_FOR_XENTROPY < p then MAX_FORECAST_PROB_FOR_XENTROPY
      else p))
  else none

/-- Source `csi_from_sr_and_pod` (lines 948-970): elementwise
`(sr^-1 + pod^-1 - 1)^-1` over numpy arrays, after validating that both
arrays have the same shape and all values lie in [0,1] or are NaN (`none`
models the validation raising).  numpy `** -1` on 0.0 yields +inf, so the
arithmetic is IEEE (`NFloat`), never raising. -/
def csi_from_sr_and_pod (success_ratio_array pod_array : List NFloat) :
    Option (List NFloat) :=
  if (success_ratio_array.all NFloat.validProb
      && pod_array.all NFloat.validProb
      && (pod_array.length == success_ratio_array.length)) = true then
    some (List.zipWith
      (fun sr pod => NFloat.inv
        (NFloat.sub (NFloat.add (NFloat.inv sr) (NFloat.inv pod))
          (NFloat.finite 1)))
      success_ratio_array pod_array)
  else none

/-- Modelled from the spec: `number_rounding.round_to_nearest` is not under
src; per the spec, forecasts are rounded to the nearest multiple of the
precision before taking unique values. -/
def round_to_nearest (x : ℚ) (rounding_base : ℚ) : ℚ :=
  if rounding_base = 0 then 0 else (round (x / rounding_base) : ℚ) * rounding_base

/-- Removes consecutive duplicates from a sorted list; composed with a sort
this models `numpy.unique` (sorted unique values). -/
def dedupSorted : List ℚ → List ℚ
  | [] => []
  | [x] => [x]
  | x :: y :: rest =>
      if x = y then dedupSorted (y :: rest) else x :: dedupSorted (y :: rest)

/-- Model of `numpy.linspace(0., 1., num)` in exact arithmetic. -/
def linspace01 (num : ℕ) : List ℚ :=
  (List.range num).map (fun (i : ℕ) => (i : ℚ) / ((num : ℚ) - 1))

/-- The three accepted formats of `threshold_arg` in
`get_binarization_thresholds`: the string "unique_forecasts", a numpy array
of thresholds, or a positive integer count. -/
inductive ThresholdArg where
  | unique_forecasts
  | explicit_array (thresholds : List ℚ)
  | num_thresholds (n : ℕ)

/-- Source `_pad_binarization_thresholds` (lines 117-142): sort ascending,
prepend 0 when the first element exceeds it, append 1+1e-6 when the last
element is below it.  Indexing an empty array would raise IndexError in the
source; the `headD`/`getLastD` defaults here are never exercised by callers
(every caller passes a nonempty array), and the theorems assume
nonemptiness. -/
def _pad_binarization_thresholds (thresholds : List ℚ) : List ℚ :=
  let s := thresholds.insertionSort (· ≤ ·)
  let s2 := if MIN_BINARIZATION_THRESHOLD < s.headD 0
    then MIN_BINARIZATION_THRESHOLD :: s else s
  if s2.getLastD 0 < MAX_BINARIZATION_THRESHOLD
  then s2 ++ [MAX_BINARIZATION_THRESHOLD] else s2

/-- Source `get_binarization_thresholds` (lines 164-224), with the three
construction modes; `none` models a validation assert raising.  Mode
"unique_forecasts" rounds (spec-modelled `round_to_nearest`, since
`number_rounding` is not under src) and takes sorted unique values; an
explicit array must lie in [0, 1+1e-6]; an integer count K >= 2 yields K
equally spaced values over [0,1].  All modes are post-processed by
`_pad_binarization_thresholds`. -/
def get_binarization_thresholds (threshold_arg : ThresholdArg)
    (forecast_probabilities : List ℚ) (unique_forecast_precision : ℚ) :
    Option (List ℚ) :=
  match threshold_arg with
  | ThresholdArg.unique_forecasts =>
      if decide (0 ≤ unique_forecast_precision)
          && decide (unique_forecast_precision ≤ 1/100) then
        some (_pad_binarization_thresholds (dedupSorted
          ((forecast_probabilities.map
            (fun p => round_to_nearest p unique_forecast_precision)).insertionSort
              (· ≤ ·))))
      else none
  | ThresholdArg.explicit_array ts =>
      if ts.all (fun t => decide (MIN_BINARIZATION_THRESHOLD ≤ t)
          && decide (t ≤ MAX_BINARIZATION_THRESHOLD)) then
        some (_pad_binarization_thresholds ts)
      else none
  | ThresholdArg.num_thresholds n =>
      if 2 ≤ n then some (_pad_binarization_thresholds (linspace01 n)) else none

/-- Nonemptiness precondition matching each construction mode (the source
raises IndexError inside `_pad_binarization_thresholds` on an empty
array; the spec requires N >= 1). -/
def thresholdArgNonempty : ThresholdArg → List ℚ → Prop
  | ThresholdArg.unique_forecasts, probs => probs ≠ []
  | ThresholdArg.explicit_array ts, _ => ts ≠ []
  | ThresholdArg.num_thresholds _, _ => True

/-- Source `get_points_in_roc_curve` (lines 581-622): validate, build the
threshold set, then per threshold binarize, build the contingency table and
emit (POFD, POD).  The per-threshold validation asserts of
`binarize_forecast_probs` and `get_contingency_table` are hoisted into the
guards here (the loop carries no state, so hoisting preserves both the
raise/no-raise behaviour and the value). -/
def get_points_in_roc_curve (forecast_probabilities : List ℚ)
    (observed_labels : List ℕ) (threshold_arg : ThresholdArg)
    (unique_forecast_precision : ℚ) : Option (List NFloat × List NFloat) :=
  if _check_forecast_probs_and_observed_labels forecast_probabilities
      observed_labels then
    match get_binarization_thresholds threshold_arg forecast_probabilities
        unique_forecast_precision with
    | none => none
    | some binarization_thresholds =>
      if binarization_thresholds.all (fun t =>
          decide (MIN_BINARIZATION_THRESHOLD ≤ t)
            && decide (t ≤ MAX_BINARIZATION_THRESHOLD)) then
        some ((binarization_thresholds.map (fun t => get_contingency_table
            (binarize_forecast_probs forecast_probabilities t)
            observed_labels)).map get_pofd,
          (binarization_thresholds.map (fun t => get_contingency_table
            (binarize_forecast_probs forecast_probabilities t)
            observed_labels)).map get_pod)
      else none
  else none

/-- Trapezoidal rule of `numpy.trapz(y, x)` over the (x, y) point list. -/
def trapz : List (ℚ × ℚ) → ℚ
  | p :: q :: rest => (q.1 - p.1) * (p.2 + q.2) / 2 + trapz (q :: rest)
  | _ => 0

/-- Model of `sklearn.metrics.auc(x, y)`: raises (ValueError) when fewer
than two points are given, or when x is neither non-decreasing nor
non-increasing; otherwise `direction * trapz(y, x)` with direction -1 for
decreasing x. -/
def sklearn_metrics_auc (x y : List ℚ) : Except Unit ℚ :=
  if x.length < 2 then Except.error ()
  else if ((x.zip x.tail).map (fun p => p.2 - p.1)).any
      (fun d => decide (d < 0)) then
    if ((x.zip x.tail).map (fun p => p.2 - p.1)).all
        (fun d => decide (d ≤ 0)) then Except.ok (-(trapz (x.zip y)))
    else Except.error ()
  else Except.ok (trapz (x.zip y))

/-- Source `get_area_under_roc_curve` (lines 539-578): validate both arrays
(values in [0,1] or NaN, equal lengths), sort the point pairs by descending
POFD with NaN last (as `numpy.argsort(-pofd)` does; a stable sort is used
here, which can differ from numpy quicksort only in the ordering of tied
POFD values), return NaN when every pair has a NaN coordinate, and
otherwise run `sklearn.metrics.auc` on the NaN-free points.
`Except.error` models the call raising. -/
def get_area_under_roc_curve (pofd_by_threshold pod_by_threshold :
    List NFloat) : Except Unit NFloat :=
  if (pofd_by_threshold.all NFloat.validProb
      && pod_by_threshold.all NFloat.validProb
      && (pod_by_threshold.length == pofd_by_threshold.length)) = true then
    let pairs := pofd_by_threshold.zip pod_by_threshold
    let sorted_pairs := pairs.insertionSort
      (fun p q => NFloat.descLe p.1 q.1 = true)
    if sorted_pairs.all (fun p => p.1 == NFloat.nan || p.2 == NFloat.nan) then
      Except.ok NFloat.nan
    else
      let real_pairs := sorted_pairs.filter
        (fun p => !(p.1 == NFloat.nan) && !(p.2 == NFloat.nan))
      Except.map (fun a => NFloat.finite a)
        (sklearn_metrics_auc (real_pairs.map (fun p => p.1.toQ))
          (real_pairs.map (fun p => p.2.toQ)))
  else Except.error ()

/-- Modelled from the spec: `numpy.nanpercentile` with the default linear
interpolation between order statistics (used by
`bootstrapping.get_confidence_interval`, which is not under src): drop
NaNs, sort ascending, interpolate at position q/100*(n-1); NaN for an
all-NaN vector.  The interpolation arithmetic is IEEE (`NFloat`). -/
def nanpercentile (stat_values : List NFloat) (q : ℚ) : NFloat :=
  let xs := (stat_values.filter (fun x => !(x == NFloat.nan))).insertionSort
    (fun a b => NFloat.ascLe a b = true)
  if xs.length = 0 then NFloat.nan
  else
    let pos : ℚ := q / 100 * ((xs.length : ℚ) - 1)
    let i : ℕ := Int.toNat pos.floor
    let a := xs.getD i NFloat.nan
    let b := xs.getD (i + 1) a
    NFloat.add a (NFloat.mul (NFloat.finite (pos - (i : ℚ))) (NFloat.sub b a))

/-- Modelled from the spec: `bootstrapping.get_confidence_interval` is not
under src; per the spec (section 3), bottom and top of a confidence
envelope are the 50*(1-confidence) and 50*(1+confidence) nanpercentiles
across bootstrap iterations, so the pair returned is (bottom, top) in that
order.  The envelope-inversion result below is robust to this choice: were
the return order (top, bottom) instead, the POD rather than the POFD
assignment of `bootstrap_roc_curve` would be the inverted one. -/
def get_confidence_interval (stat_values : List NFloat)
    (confidence_level : ℚ) : NFloat × NFloat :=
  (nanpercentile stat_values (50 * (1 - confidence_level)),
   nanpercentile stat_values (50 * (1 + confidence_level)))

/-- ROC-curve result dictionary of `bootstrap_roc_curve`, with the source's
keys. -/
structure RocDict where
  pofd_by_threshold : List NFloat
  pod_by_threshold : List NFloat
  area_under_curve : NFloat
deriving DecidableEq

/-- Source `bootstrap_roc_curve` (lines 625-719).  Randomness is
externalized: `sample_indices_by_iter` lists the index samples produced by
`bootstrapping.draw_sample`, one per iteration (each a with-replacement
sample of `0 ... N-1` of length N).  The function validates the inputs,
builds the threshold set once from the full dataset, checks
`num_bootstrap_iters > 1`, recomputes the per-threshold POFD/POD and the
AUC on every resample, and assembles the (bottom, mean, top) envelope
triple.  The tuple-assignment order of the source is kept exactly: per
threshold, `(top.pofd[i], bottom.pofd[i]) = get_confidence_interval(...)`
but `(bottom.pod[i], top.pod[i]) = get_confidence_interval(...)`, and
`(bottom.auc, top.auc) = get_confidence_interval(...)`. -/
def bootstrap_roc_curve (forecast_probabilities : List ℚ)
    (observed_labels : List ℕ) (threshold_arg : ThresholdArg)
    (unique_forecast_precision : ℚ) (num_bootstrap_iters : ℕ)
    (confidence_level : ℚ) (sample_indices_by_iter : List (List ℕ)) :
    Option (RocDict × RocDict × RocDict) := do
  let _ ← ensure (_check_forecast_probs_and_observed_labels
    forecast_probabilities observed_labels)
  let binarization_thresholds ← get_binarization_thresholds threshold_arg
    forecast_probabilities unique_forecast_precision
  let _ ← ensure (decide (1 < num_bootstrap_iters))
  let _ ← ensure (binarization_thresholds.all (fun t =>
    decide (MIN_BINARIZATION_THRESHOLD ≤ t)
      && decide (t ≤ MAX_BINARIZATION_THRESHOLD)))
  let iter_results ← (List.range num_bootstrap_iters).mapM (fun j => do
    let idx := sample_indices_by_iter.getD j []
    let ps_j := idx.map (fun k => forecast_probabilities.getD k 0)
    let os_j := idx.map (fun k => observed_labels.getD k 0)
    let tables := binarization_thresholds.map (fun t =>
      get_contingency_table (binarize_forecast_probs ps_j t) os_j)
    let pofds := tables.map get_pofd
    let pods := tables.map get_pod
    let auc ← (get_area_under_roc_curve pofds pods).toOption
    pure (pofds, pods, auc))
  let threshold_indices := List.range binarization_thresholds.length
  let pofd_row := fun i => iter_results.map (fun r => r.1.getD i NFloat.nan)
  let pod_row := fun i => iter_results.map (fun r => r.2.1.getD i NFloat.nan)
  let auc_values := iter_results.map (fun r => r.2.2)
  let roc_dictionary_bottom : RocDict :=
    { pofd_by_threshold := threshold_indices.map
        (fun i => (get_confidence_interval (pofd_row i) confidence_level).2)
      pod_by_threshold := threshold_indices.map
        (fun i => (get_confidence_interval (pod_row i) confidence_level).1)
      area_under_curve := (get_confidence_interval auc_values confidence_level).1 }
  let roc_dictionary_top : RocDict :=
    { pofd_by_threshold := threshold_indices.map
        (fun i => (get_confidence_interval (pofd_row i) confidence_level).1)
      pod_by_threshold := threshold_indices.map
        (fun i => (get_confidence_interval (pod_row i) confidence_level).2)
      area_under_curve := (get_confidence_interval auc_values confidence_level).2 }
  let roc_dictionary_mean : RocDict :=
    { pofd_by_threshold := threshold_indices.map (fun i => nanmean (pofd_row i))
      pod_by_threshold := threshold_indices.map (fun i => nanmean (pod_row i))
      area_under_curve := nanmean auc_values }
  pure (roc_dictionary_bottom, roc_dictionary_mean, roc_dictionary_top)

/-- Modelled from the spec: `histograms.create_histogram` is not under src;
per the spec, the bin index comes from an equal-width histogram over [0,1]
with `num_bins` bins (indices clamped to the valid range). -/
def _split_forecast_probs_into_bins (forecast_probabilities : List ℚ)
    (num_bins : ℕ) : List ℕ :=
  forecast_probabilities.map
    (fun p => min (Int.toNat (Rat.floor (p * (num_bins : ℚ)))) (num_bins - 1))

/-- Reliability-curve result dictionary of `bootstrap_reliability_curve`,
with the source's keys. -/
structure ReliabilityDict where
  mean_forecast_prob_by_bin : List NFloat
  mean_observed_label_by_bin : List NFloat
  brier_skill_score : NFloat
  brier_score : NFloat
  reliability : NFloat
  resolution : NFloat
deriving DecidableEq

/-- Source `bootstrap_reliability_curve` (lines 1017-1148).  Randomness is
externalized exactly as in `bootstrap_roc_curve`.  NOTE: unlike
`bootstrap_roc_curve` (line 665) and `bootstrap_performance_diagram`
(line 821), this function performs NO validation of `num_bootstrap_iters`;
the loop simply runs `range(num_bootstrap_iters)` times.  The
tuple-assignment order of the source is kept exactly: per bin,
`(top.mean_forecast_prob[i], bottom.mean_forecast_prob[i]) =
get_confidence_interval(...)` but `(bottom.mean_observed_label[i],
top.mean_observed_label[i]) = get_confidence_interval(...)`, and
`(bottom, top)` order for the four scalar scores. -/
def bootstrap_reliability_curve (forecast_probabilities : List ℚ)
    (observed_labels : List ℕ) (num_forecast_bins : ℕ)
    (num_bootstrap_iters : ℕ) (confidence_level : ℚ)
    (sample_indices_by_iter : List (List ℕ)) :
    Option (ReliabilityDict × ReliabilityDict × ReliabilityDict × List ℕ) := do
  let _ ← ensure (_check_forecast_probs_and_observed_labels
    forecast_probabilities observed_labels)
  let bin_index_by_example := _split_forecast_probs_into_bins
    forecast_probabilities num_forecast_bins
  let num_examples_by_bin := (List.range num_forecast_bins).map
    (fun i => (bin_index_by_example.filter (fun b => b == i)).length)
  let iter_results ← (List.range num_bootstrap_iters).mapM (fun j => do
    let idx := sample_indices_by_iter.getD j []
    let per_bin := (List.range num_forecast_bins).map (fun i =>
      let these := idx.filter (fun s => bin_index_by_example.getD s 0 == i)
      (npMean (these.map (fun s => forecast_probabilities.getD s 0)),
       npMean (these.map (fun s => ((observed_labels.getD s 0 : ℕ) : ℚ))),
       these.length))
    let climatology ← (match idx with
      | [] => none
      | _ => some ((idx.map (fun s => ((observed_labels.getD s 0 : ℕ) : ℚ))).sum
          / (idx.length : ℚ)))
    let bss_dict ← get_brier_skill_score (per_bin.map (fun r => r.1))
      (per_bin.map (fun r => r.2.1)) (per_bin.map (fun r => r.2.2)) climatology
    pure (per_bin.map (fun r => r.1), per_bin.map (fun r => r.2.1), bss_dict))
  let bin_indices := List.range num_forecast_bins
  let forecast_row := fun i => iter_results.map (fun r => r.1.getD i NFloat.nan)
  let observed_row := fun i => iter_results.map (fun r => r.2.1.getD i NFloat.nan)
  let brier_skill_scores := iter_results.map (fun r => r.2.2.brier_skill_score)
  let brier_scores := iter_results.map (fun r => r.2.2.brier_score)
  let reliabilities := iter_results.map (fun r => r.2.2.reliability)
  let resolutions := iter_results.map (fun r => r.2.2.resolution)
  let reliability_dict_bottom : ReliabilityDict :=
    { mean_forecast_prob_by_bin := bin_indices.map
        (fun i => (get_confidence_interval (forecast_row i) confidence_level).2)
      mean_observed_label_by_bin := bin_indices.map
        (fun i => (get_confidence_interval (observed_row i) confidence_level).1)
      brier_skill_score :=
        (get_confidence_interval brier_skill_scores confidence_level).1
      brier_score := (get_confidence_interval brier_scores confidence_level).1
      reliability := (get_confidence_interval reliabilities confidence_level).1
      resolution := (get_confidence_interval resolutions confidence_level).1 }
  let reliability_dict_top : ReliabilityDict :=
    { mean_forecast_prob_by_bin := bin_indices.map
        (fun i => (get_confidence_interval (forecast_row i) confidence_level).1)
      mean_observed_label_by_bin := bin_indices.map
        (fun i => (get_confidence_interval (observed_row i) confidence_level).2)
      brier_skill_score :=
        (get_confidence_interval brier_skill_scores confidence_level).2
      brier_score := (get_confidence_interval brier_scores confidence_level).2
      reliability := (get_confidence_interval reliabilities confidence_level).2
      resolution := (get_confidence_interval resolutions confidence_level).2 }
  let reliability_dict_mean : ReliabilityDict :=
    { mean_forecast_prob_by_bin := bin_indices.map
        (fun i => nanmean (forecast_row i))
      mean_observed_label_by_bin := bin_indices.map
        (fun i => nanmean (observed_row i))
      brier_skill_score := nanmean brier_skill_scores
      brier_score := nanmean brier_scores
      reliability := nanmean reliabilities
      resolution := nanmean resolutions }
  pure (reliability_dict_bottom, reliability_dict_mean, reliability_dict_top,
    num_examples_by_bin)

/-! Theorems. -/

/-- Claim C1 (counterexample): on the table TP=1, FP=2, FN=0, TN=1 the
source's `get_heidke_score` returns 2/10 = 1/5 while the spec's stated
formula gives 2/6 = 1/3; the two disagree. -/
theorem heidke_spec_formula_counterexample :
    get_heidke_score ⟨1, 2, 0, 1⟩ = NFloat.finite (1/5)
      ∧ heidke_score_spec_formula ⟨1, 2, 0, 1⟩ = NFloat.finite (1/3)
      ∧ get_heidke_score ⟨1, 2, 0, 1⟩ ≠ heidke_score_spec_formula ⟨1, 2, 0, 1⟩ := by
  refine ⟨by with_unfolding_all rfl, by with_unfolding_all rfl,
    of_decide_eq_true (by with_unfolding_all rfl)⟩

/-- Claim C1 (amended): for every contingency table, `get_heidke_score`
returns `2*(TP*TN - FP*FN)` divided by
`(TP+FP)*(FP+TN) + (TP+FN)*(FN+TN)`, and NaN when that denominator is
zero. -/
theorem heidke_denominator_corrected (t : ContingencyTable) :
    get_heidke_score t = heidke_score_amended_formula t := by
  obtain ⟨a, b, c, d⟩ := t
  have hden : (a + b) * (d + b) + (d + c) * (a + c)
      = (a + b) * (b + d) + (a + c) * (c + d) := by ring
  simp only [get_heidke_score, heidke_score_amended_formula, hden]

/-- Claim C2: with one bin holding one example of mean forecast 1/2 and
observed frequency 1, and climatology 0 (a valid input), uncertainty is 0
but resolution-minus-reliability is 3/4, so the numpy division returns
positive infinity, not NaN: the `except ZeroDivisionError` handler never
fires for numpy scalars.  The call indeed never raises (it returns a
dictionary), but the returned Brier skill score is +inf, not NaN. -/
theorem brier_skill_score_zero_uncertainty_inf :
    get_brier_skill_score [NFloat.finite (1/2)] [NFloat.finite 1] [1] 0
      = some { brier_skill_score := NFloat.posInf
               brier_score := NFloat.finite (-3/4)
               reliability := NFloat.finite (1/4)
               resolution := NFloat.finite 1
               uncertainty := NFloat.finite 0 }
      ∧ NFloat.posInf ≠ NFloat.nan := by
  refine ⟨by with_unfolding_all rfl, of_decide_eq_true (by with_unfolding_all rfl)⟩

/-- Claim C3: `get_cross_entropy` mutates its input.  On the valid input
`forecast_probabilities = [0.0]`, `observed_labels = [0]`, after the call
the caller's array holds `[2^-52]`, not `[0.0]`: the in-place clipping
changed the array, contradicting the immutability claim. -/
theorem cross_entropy_mutates_input :
    get_cross_entropy_forecast_probs_after [0] [0] = some [1 / 2 ^ 52]
      ∧ (1 / 2 ^ 52 : ℚ) ≠ 0 := by
  refine ⟨by with_unfolding_all rfl, of_decide_eq_true (by with_unfolding_all rfl)⟩

/-- Claim C8 (counterexample): on the contingency table TP=0, FP=0, FN=1,
TN=0 (N = 1), the success ratio is NaN (0/0) while POD is 0, so
`csi_from_sr_and_pod` propagates NaN; but `get_csi` returns 0/(0+0+1) = 0.
The two disagree. -/
theorem csi_consistency_counterexample :
    csi_from_sr_and_pod [get_success_ratio ⟨0, 0, 1, 0⟩] [get_pod ⟨0, 0, 1, 0⟩]
        = some [NFloat.nan]
      ∧ get_csi ⟨0, 0, 1, 0⟩ = NFloat.finite 0
      ∧ NFloat.nan ≠ NFloat.finite 0 := by
  refine ⟨by with_unfolding_all rfl, by with_unfolding_all rfl,
    of_decide_eq_true (by with_unfolding_all rfl)⟩

/-- Claim C9 (counterexample): on the valid single-point input
POFD = [0.5], POD = [0.5] no point has a NaN coordinate, so the claim
requires a trapezoidal integral without raising; but after NaN-dropping
only one point remains and `sklearn.metrics.auc` raises ValueError ("At
least 2 points are needed"), modelled by `Except.error`. -/
theorem auc_single_point_raises :
    get_area_under_roc_curve [NFloat.finite (1/2)] [NFloat.finite (1/2)]
      = Except.error () := by
  with_unfolding_all rfl

/-- Claim C4: with forecasts [1, 0], labels [0, 0], two bootstrap samples
[1,1] and [0,0] and confidence 0.95, the POFD values across iterations at
threshold index 1 are 0 and 1, whose 2.5th/97.5th percentiles are 1/40 and
39/40; `bootstrap_roc_curve` assigns `(top, bottom) = CI` for POFD, so the
bottom envelope holds 39/40 and the top envelope 1/40: both are non-NaN and
bottom > top, refuting the bottom <= top claim. -/
theorem bootstrap_roc_pofd_envelope_inverted :
    (bootstrap_roc_curve [1, 0] [0, 0] (ThresholdArg.num_thresholds 2)
        (1/10000) 2 (19/20) [[1, 1], [0, 0]]).map
      (fun r => (r.1.pofd_by_threshold.getD 1 NFloat.nan,
                 r.2.2.pofd_by_threshold.getD 1 NFloat.nan))
      = some (NFloat.finite (39/40), NFloat.finite (1/40))
      ∧ ¬ ((39 : ℚ)/40 ≤ 1/40) := by
  refine ⟨by with_unfolding_all rfl, of_decide_eq_true (by with_unfolding_all rfl)⟩

/-- Claim C10: `bootstrap_reliability_curve` performs no validation of
`num_bootstrap_iters`: called with `num_bootstrap_iters = 1` on a valid
dataset it completes and returns a result, whereas `bootstrap_roc_curve`
(which does validate, though only after computing the threshold set)
raises on the same iteration count. -/
theorem bootstrap_reliability_missing_iters_check :
    (bootstrap_reliability_curve [1/2, 1/2] [0, 1] 1 1 (19/20)
        [[0, 1]]).isSome = true
      ∧ (bootstrap_roc_curve [1/2, 1/2] [0, 1] (ThresholdArg.num_thresholds 2)
        (1/10000) 1 (19/20) [[0, 1]]).isSome = false := by
  refine ⟨by with_unfolding_all rfl, by with_unfolding_all rfl⟩

/-- Helper: in a sorted list the (defaulted) head is a lower bound. -/
theorem headD_le_of_sorted {l : List ℚ} (h : l.Sorted (· ≤ ·)) {x : ℚ}
    (hx : x ∈ l) (d : ℚ) : l.headD d ≤ x := by
  cases l with
  | nil => cases hx
  | cons a t =>
    rcases List.mem_cons.mp hx with rfl | hxt
    · exact le_refl _
    · exact (List.sorted_cons.mp h).1 x hxt

/-- Helper: in a sorted list the (defaulted) last element is an upper
bound. -/
theorem le_getLastD_of_sorted : ∀ (l : List ℚ) (d : ℚ),
    l.Sorted (· ≤ ·) → ∀ x ∈ l, x ≤ l.getLastD d
  | [], _, _, _, hx => absurd hx (List.not_mem_nil _)
  | a :: t, d, h, x, hx => by
    rw [List.getLastD_cons]
    rcases List.mem_cons.mp hx with rfl | hxt
    · cases t with
      | nil => exact le_refl _
      | cons b t' =>
        exact le_trans ((List.sorted_cons.mp h).1 b (List.mem_cons_self b t'))
          (le_getLastD_of_sorted (b :: t') x (List.sorted_cons.mp h).2 b
            (List.mem_cons_self b t'))
    · exact le_getLastD_of_sorted t a (List.sorted_cons.mp h).2 x hxt

/-- Helper: head of an append with nonempty left part. -/
theorem headD_append_of_ne_nil {l : List ℚ} (h : l ≠ []) (r : List ℚ)
    (d : ℚ) : (l ++ r).headD d = l.headD d := by
  cases l with
  | nil => exact absurd rfl h
  | cons a t => rfl

/-- Helper: last of a list with one element appended. -/
theorem getLastD_append_singleton : ∀ (l : List ℚ) (a d : ℚ),
    (l ++ [a]).getLastD d = a
  | [], _, _ => rfl
  | b :: t, a, d => by
    rw [List.cons_append, List.getLastD_cons, getLastD_append_singleton t a b]

/-- Helper: `insertionSort` of a nonempty list is nonempty. -/
theorem insertionSort_ne_nil {l : List ℚ} (h : l ≠ []) :
    l.insertionSort (· ≤ ·) ≠ [] := by
  intro hc
  exact h (List.eq_nil_of_length_eq_zero
    (by rw [← (List.perm_insertionSort (· ≤ ·) l).length_eq, hc, List.length_nil]))

/-- Helper: `dedupSorted` of a nonempty list is nonempty. -/
theorem dedupSorted_ne_nil : ∀ {l : List ℚ}, l ≠ [] → dedupSorted l ≠ []
  | [], h => absurd rfl h
  | [_], _ => by simp [dedupSorted]
  | x :: y :: rest, _ => by
    by_cases hxy : x = y
    · simpa [dedupSorted, hxy] using
        dedupSorted_ne_nil (List.cons_ne_nil y rest)
    · simp [dedupSorted, hxy]

/-- Helper for the prepend step of `_pad_binarization_thresholds`. -/
theorem pad_prepend_step (s : List ℚ) (hs : s.Sorted (· ≤ ·)) (hsne : s ≠ []) :
    (if MIN_BINARIZATION_THRESHOLD < s.headD 0
        then MIN_BINARIZATION_THRESHOLD :: s else s).Sorted (· ≤ ·)
      ∧ (if MIN_BINARIZATION_THRESHOLD < s.headD 0
        then MIN_BINARIZATION_THRESHOLD :: s else s).headD 0 ≤ 0
      ∧ (if MIN_BINARIZATION_THRESHOLD < s.headD 0
        then MIN_BINARIZATION_THRESHOLD :: s else s) ≠ [] := by
  by_cases hlt : MIN_BINARIZATION_THRESHOLD < s.headD 0
  · rw [if_pos hlt]
    refine ⟨List.sorted_cons.mpr ⟨fun b hb => ?_, hs⟩, ?_, List.cons_ne_nil _ _⟩
    · exact le_trans (le_of_lt hlt) (headD_le_of_sorted hs hb 0)
    · simp [MIN_BINARIZATION_THRESHOLD]
  · rw [if_neg hlt]
    refine ⟨hs, ?_, hsne⟩
    simpa [MIN_BINARIZATION_THRESHOLD] using le_of_not_lt hlt

/-- Helper for the append step of `_pad_binarization_thresholds`. -/
theorem pad_append_step (s2 : List ℚ) (hs2 : s2.Sorted (· ≤ ·))
    (hs2ne : s2 ≠ []) (hs2head : s2.headD 0 ≤ 0) :
    (if s2.getLastD 0 < MAX_BINARIZATION_THRESHOLD
        then s2 ++ [MAX_BINARIZATION_THRESHOLD] else s2) ≠ []
      ∧ (if s2.getLastD 0 < MAX_BINARIZATION_THRESHOLD
        then s2 ++ [MAX_BINARIZATION_THRESHOLD] else s2).Sorted (· ≤ ·)
      ∧ (if s2.getLastD 0 < MAX_BINARIZATION_THRESHOLD
        then s2 ++ [MAX_BINARIZATION_THRESHOLD] else s2).headD 0 ≤ 0
      ∧ 1 + TOLERANCE ≤ (if s2.getLastD 0 < MAX_BINARIZATION_THRESHOLD
        then s2 ++ [MAX_BINARIZATION_THRESHOLD] else s2).getLastD 0 := by
  by_cases happ : s2.getLastD 0 < MAX_BINARIZATION_THRESHOLD
  · rw [if_pos happ]
    refine ⟨?_, ?_, ?_, ?_⟩
    · intro hc
      exact List.cons_ne_nil _ _ (List.nil_eq_append_iff.mp hc.symm).2
    · rw [List.Sorted, List.pairwise_append]
      refine ⟨hs2, List.sorted_singleton _, fun x hx y hy => ?_⟩
      rcases List.mem_singleton.mp hy with rfl
      exact le_trans (le_getLastD_of_sorted s2 0 hs2 x hx) (le_of_lt happ)
    · rw [headD_append_of_ne_nil hs2ne]; exact hs2head
    · rw [getLastD_append_singleton]
      exact le_of_eq (by norm_num [MAX_BINARIZATION_THRESHOLD])
  · rw [if_neg happ]
    refine ⟨hs2ne, hs2, hs2head, ?_⟩
    have := le_of_not_lt happ
    rw [MAX_BINARIZATION_THRESHOLD] at this
    linarith

/-- Helper: `_pad_binarization_thresholds` of any nonempty array is sorted
ascending, starts at or below 0 and ends at or above 1 + 1e-6. -/
theorem pad_sorted_bounds (l : List ℚ) (hl : l ≠ []) :
    _pad_binarization_thresholds l ≠ []
      ∧ (_pad_binarization_thresholds l).Sorted (· ≤ ·)
      ∧ (_pad_binarization_thresholds l).headD 0 ≤ 0
      ∧ 1 + TOLERANCE ≤ (_pad_binarization_thresholds l).getLastD 0 := by
  obtain ⟨h1, h2, h3⟩ := pad_prepend_step (l.insertionSort (· ≤ ·))
    (List.sorted_insertionSort (· ≤ ·) l) (insertionSort_ne_nil hl)
  exact pad_append_step _ h1 h3 h2

/-- Helper: any threshold set successfully returned by
`get_binarization_thresholds` (nonempty pre-padding input, as the source
requires) is nonempty, sorted ascending, starts at or below 0 and ends at
or above 1 + 1e-6. -/
theorem thresholds_invariants_aux (threshold_arg : ThresholdArg)
    (forecast_probabilities : List ℚ) (unique_forecast_precision : ℚ)
    (hne : thresholdArgNonempty threshold_arg forecast_probabilities) :
    ∀ ts, get_binarization_thresholds threshold_arg forecast_probabilities
        unique_forecast_precision = some ts →
      ts ≠ [] ∧ ts.Sorted (· ≤ ·) ∧ ts.headD 0 ≤ 0
        ∧ 1 + TOLERANCE ≤ ts.getLastD 0 := by
  intro ts hts
  have main : ∀ l : List ℚ, l ≠ [] → ts = _pad_binarization_thresholds l →
      ts ≠ [] ∧ ts.Sorted (· ≤ ·) ∧ ts.headD 0 ≤ 0
        ∧ 1 + TOLERANCE ≤ ts.getLastD 0 := by
    intro l hlne hpad
    obtain ⟨h0, h1, h2, h3⟩ := pad_sorted_bounds l hlne
    exact ⟨hpad ▸ h0, hpad ▸ h1, hpad ▸ h2, hpad ▸ h3⟩
  cases threshold_arg with
  | unique_forecasts =>
    rw [get_binarization_thresholds] at hts
    split at hts
    · refine main _ ?_ (Option.some_injective _ hts).symm
      exact dedupSorted_ne_nil (insertionSort_ne_nil
        (by simpa [List.map_eq_nil_iff] using hne))
    · cases hts
  | explicit_array thresholds =>
    rw [get_binarization_thresholds] at hts
    split at hts
    · exact main _ hne (Option.some_injective _ hts).symm
    · cases hts
  | num_thresholds n =>
    rw [get_binarization_thresholds] at hts
    split at hts
    · rename_i hn
      refine main _ (fun hnil => ?_) (Option.some_injective _ hts).symm
      have hlen : (linspace01 n).length = n := by
        rw [linspace01, List.length_map, List.length_range]
      rw [hnil] at hlen
      simp at hlen
      omega
    · cases hts

/-- Claim C5: in every construction mode, a threshold set successfully
returned by `get_binarization_thresholds` (nonempty pre-padding input, as
the source requires) is sorted ascending, its minimum (first element) is
at most 0 and its maximum (last element) is at least 1. -/
theorem get_binarization_thresholds_invariants (threshold_arg : ThresholdArg)
    (forecast_probabilities : List ℚ) (unique_forecast_precision : ℚ)
    (hne : thresholdArgNonempty threshold_arg forecast_probabilities) :
    ∀ ts, get_binarization_thresholds threshold_arg forecast_probabilities
        unique_forecast_precision = some ts →
      ts.Sorted (· ≤ ·) ∧ ts.headD 0 ≤ 0 ∧ 1 ≤ ts.getLastD 0 := by
  intro ts hts
  obtain ⟨-, h1, h2, h3⟩ := thresholds_invariants_aux threshold_arg
    forecast_probabilities unique_forecast_precision hne ts hts
  have htol : (0 : ℚ) < TOLERANCE := by norm_num [TOLERANCE]
  exact ⟨h1, h2, by linarith⟩

/-- Claim C5 witness: the invariants hold of the concrete threshold set
built from the count mode with K = 2, namely [0, 1, 1 + 1e-6]. -/
theorem get_binarization_thresholds_invariants_witness :
    ([0, 1, 1 + TOLERANCE] : List ℚ).Sorted (· ≤ ·)
      ∧ ([0, 1, 1 + TOLERANCE] : List ℚ).headD 0 ≤ 0
      ∧ 1 ≤ ([0, 1, 1 + TOLERANCE] : List ℚ).getLastD 0 :=
  get_binarization_thresholds_invariants (ThresholdArg.num_thresholds 2) []
    (1/10000) trivial [0, 1, 1 + TOLERANCE] (by with_unfolding_all rfl)

/-- Helper: a Bool-conjunction count splits over its first factor. -/
theorem countP_and_split {α : Type} (l : List α) (p q : α → Bool) :
    l.countP (fun a => p a && q a) + l.countP (fun a => !(p a) && q a)
      = l.countP q := by
  induction l with
  | nil => rfl
  | cons a t ih =>
    by_cases hp : p a = true <;> by_cases hq : q a = true <;>
      simp [List.countP_cons, hp, hq] <;> omega

/-- Helper: the four counts of the contingency table obtained from
binarized forecasts, as predicate counts over the paired data. -/
theorem binarize_table_counts (ps : List ℚ) (os : List ℕ) (t : ℚ) :
    (get_contingency_table (binarize_forecast_probs ps t) os).num_true_positives
        = (ps.zip os).countP (fun x => decide (t ≤ x.1) && (x.2 == 1))
      ∧ (get_contingency_table (binarize_forecast_probs ps t)
            os).num_false_positives
        = (ps.zip os).countP (fun x => decide (t ≤ x.1) && (x.2 == 0))
      ∧ (get_contingency_table (binarize_forecast_probs ps t)
            os).num_false_negatives
        = (ps.zip os).countP (fun x => !(decide (t ≤ x.1)) && (x.2 == 1))
      ∧ (get_contingency_table (binarize_forecast_probs ps t)
            os).num_true_negatives
        = (ps.zip os).countP (fun x => !(decide (t ≤ x.1)) && (x.2 == 0)) := by
  simp only [get_contingency_table, binarize_forecast_probs,
    List.zip_map_left, ← List.countP_eq_length_filter, List.countP_map]
  refine ⟨?_, ?_, ?_, ?_⟩ <;>
    refine List.countP_congr (fun x _ => ?_) <;>
    by_cases h : t ≤ x.1 <;> simp [h, Prod.map]

/-- Helper: counting a label value over the paired data equals counting it
over the labels, when lengths match. -/
theorem countP_snd_zip (ps : List ℚ) (os : List ℕ)
    (hlen : os.length = ps.length) (v : ℕ) :
    (ps.zip os).countP (fun x => x.2 == v) = os.countP (fun o => o == v) := by
  have hmap : (ps.zip os).map Prod.snd = os :=
    List.map_snd_zip ps os (le_of_eq hlen)
  calc (ps.zip os).countP (fun x => x.2 == v)
      = ((ps.zip os).map Prod.snd).countP (fun o => o == v) := by
        rw [List.countP_map]; rfl
    _ = os.countP (fun o => o == v) := by rw [hmap]

/-- Helper: POFD of the table binarized at threshold t, as a ratio of
counts over the paired data. -/
theorem get_pofd_binarize (ps : List ℚ) (os : List ℕ) (t : ℚ) :
    get_pofd (get_contingency_table (binarize_forecast_probs ps t) os)
      = (if (ps.zip os).countP (fun x => x.2 == 0) = 0 then NFloat.nan
         else NFloat.finite
           ((((ps.zip os).countP (fun x => decide (t ≤ x.1) && (x.2 == 0))) : ℚ)
             / (((ps.zip os).countP (fun x => x.2 == 0)) : ℚ))) := by
  obtain ⟨-, hfp, -, htn⟩ := binarize_table_counts ps os t
  have hsplit := countP_and_split (ps.zip os)
    (fun x => decide (t ≤ x.1)) (fun x => x.2 == 0)
  rw [get_pofd, hfp, htn]
  rw [show ((ps.zip os).countP (fun x => decide (t ≤ x.1) && (x.2 == 0)))
      + ((ps.zip os).countP (fun x => !(decide (t ≤ x.1)) && (x.2 == 0)))
      = (ps.zip os).countP (fun x => x.2 == 0) from hsplit]
  congr 1
  rw [← Nat.cast_add, hsplit]

/-- Helper: POD of the table binarized at threshold t, as a ratio of counts
over the paired data. -/
theorem get_pod_binarize (ps : List ℚ) (os : List ℕ) (t : ℚ) :
    get_pod (get_contingency_table (binarize_forecast_probs ps t) os)
      = (if (ps.zip os).countP (fun x => x.2 == 1) = 0 then NFloat.nan
         else NFloat.finite
           ((((ps.zip os).countP (fun x => decide (t ≤ x.1) && (x.2 == 1))) : ℚ)
             / (((ps.zip os).countP (fun x => x.2 == 1)) : ℚ))) := by
  obtain ⟨htp, -, hfn, -⟩ := binarize_table_counts ps os t
  have hsplit := countP_and_split (ps.zip os)
    (fun x => decide (t ≤ x.1)) (fun x => x.2 == 1)
  rw [get_pod, htp, hfn]
  rw [show ((ps.zip os).countP (fun x => decide (t ≤ x.1) && (x.2 == 1)))
      + ((ps.zip os).countP (fun x => !(decide (t ≤ x.1)) && (x.2 == 1)))
      = (ps.zip os).countP (fun x => x.2 == 1) from hsplit]
  congr 1
  rw [← Nat.cast_add, hsplit]

/-- Helper: head of a mapped nonempty list. -/
theorem headD_map_ne_nil {α β : Type} (f : α → β) {l : List α} (h : l ≠ [])
    (d : β) (d' : α) : (l.map f).headD d = f (l.headD d') := by
  cases l with
  | nil => exact absurd rfl h
  | cons a t => rfl

/-- Helper: last of a mapped nonempty list. -/
theorem getLastD_map_ne_nil {α β : Type} (f : α → β) : ∀ {l : List α},
    l ≠ [] → ∀ (d : β) (d' : α), (l.map f).getLastD d = f (l.getLastD d')
  | [], h, _, _ => absurd rfl h
  | [_], _, _, _ => rfl
  | a :: b :: t, _, d, d' => by
    have ih := getLastD_map_ne_nil f (List.cons_ne_nil b t) (f a) a
    simp only [List.map_cons, List.getLastD_cons] at ih ⊢
    exact ih

/-- Helper: a successful `get_points_in_roc_curve` run yields the two maps
over a validated threshold set. -/
theorem roc_points_some_elim (ps : List ℚ) (os : List ℕ)
    (arg : ThresholdArg) (prec : ℚ) (r : List NFloat × List NFloat)
    (h : get_points_in_roc_curve ps os arg prec = some r) :
    ∃ ts, _check_forecast_probs_and_observed_labels ps os = true
      ∧ get_binarization_thresholds arg ps prec = some ts
      ∧ r = (ts.map (fun t => get_pofd (get_contingency_table
            (binarize_forecast_probs ps t) os)),
          ts.map (fun t => get_pod (get_contingency_table
            (binarize_forecast_probs ps t) os))) := by
  rw [get_points_in_roc_curve] at h
  split at h
  · rename_i hchk
    split at h
    · cases h
    · rename_i ts hth
      split at h
      · refine ⟨ts, hchk, hth, ?_⟩
        rw [← Option.some_injective _ h, List.map_map, List.map_map]
        rfl
      · cases h
  · cases h

/-- Helper: `_pad_binarization_thresholds` always returns a sorted list
(no nonemptiness needed). -/
theorem pad_sorted_any (l : List ℚ) :
    (_pad_binarization_thresholds l).Sorted (· ≤ ·) := by
  have hs : (l.insertionSort (· ≤ ·)).Sorted (· ≤ ·) :=
    List.sorted_insertionSort (· ≤ ·) l
  have hs2 : (if MIN_BINARIZATION_THRESHOLD
      < (l.insertionSort (· ≤ ·)).headD 0
      then MIN_BINARIZATION_THRESHOLD :: l.insertionSort (· ≤ ·)
      else l.insertionSort (· ≤ ·)).Sorted (· ≤ ·) := by
    by_cases hlt : MIN_BINARIZATION_THRESHOLD
        < (l.insertionSort (· ≤ ·)).headD 0
    · rw [if_pos hlt]
      refine List.sorted_cons.mpr ⟨fun b hb => ?_, hs⟩
      exact le_trans (le_of_lt hlt) (headD_le_of_sorted hs hb 0)
    · rw [if_neg hlt]; exact hs
  show (if _ then _ ++ [MAX_BINARIZATION_THRESHOLD] else _).Sorted (· ≤ ·)
  by_cases happ : (if MIN_BINARIZATION_THRESHOLD
      < (l.insertionSort (· ≤ ·)).headD 0
      then MIN_BINARIZATION_THRESHOLD :: l.insertionSort (· ≤ ·)
      else l.insertionSort (· ≤ ·)).getLastD 0 < MAX_BINARIZATION_THRESHOLD
  · rw [if_pos happ]
    rw [List.Sorted, List.pairwise_append]
    refine ⟨hs2, List.sorted_singleton _, fun x hx y hy => ?_⟩
    rcases List.mem_singleton.mp hy with rfl
    exact le_trans (le_getLastD_of_sorted _ 0 hs2 x hx) (le_of_lt happ)
  · rw [if_neg happ]; exact hs2

/-- Helper: every successfully returned threshold set is the padding of
some list, hence sorted. -/
theorem thresholds_sorted (arg : ThresholdArg) (ps : List ℚ) (prec : ℚ)
    (ts : List ℚ) (h : get_binarization_thresholds arg ps prec = some ts) :
    ts.Sorted (· ≤ ·) := by
  have : ∃ l, ts = _pad_binarization_thresholds l := by
    cases arg with
    | unique_forecasts =>
      rw [get_binarization_thresholds] at h
      split at h
      · exact ⟨_, (Option.some_injective _ h).symm⟩
      · cases h
    | explicit_array thresholds =>
      rw [get_binarization_thresholds] at h
      split at h
      · exact ⟨_, (Option.some_injective _ h).symm⟩
      · cases h
    | num_thresholds n =>
      rw [get_binarization_thresholds] at h
      split at h
      · exact ⟨_, (Option.some_injective _ h).symm⟩
      · cases h
  obtain ⟨l, rfl⟩ := this
  exact pad_sorted_any l

/-- Helper: entries of a sorted list are ordered along `get?`. -/
theorem sorted_get?_le (l : List ℚ) (hsort : l.Sorted (· ≤ ·)) (i j : ℕ)
    (hij : i ≤ j) (ti tj : ℚ) (hti : l.get? i = some ti)
    (htj : l.get? j = some tj) : ti ≤ tj := by
  rcases eq_or_lt_of_le hij with rfl | hlt
  · rw [hti] at htj
    exact le_of_eq (Option.some_injective _ htj)
  · obtain ⟨hi, hgi⟩ := List.get?_eq_some.mp hti
    obtain ⟨hj, hgj⟩ := List.get?_eq_some.mp htj
    have h := List.pairwise_iff_get.mp hsort ⟨i, hi⟩ ⟨j, hj⟩
      (Fin.mk_lt_mk.mpr hlt)
    rw [hgi, hgj] at h
    exact h

/-- Helper: the count ratio produced by `get_pofd_binarize` or
`get_pod_binarize` is antitone in the threshold whenever finite. -/
theorem ratio_antitone_of_le (ps : List ℚ) (os : List ℕ) (v : ℕ)
    (ti tj : ℚ) (hle : ti ≤ tj) (a b : ℚ)
    (ha : (if (ps.zip os).countP (fun x => x.2 == v) = 0 then NFloat.nan
        else NFloat.finite
          ((((ps.zip os).countP (fun x => decide (ti ≤ x.1) && (x.2 == v))) : ℚ)
            / (((ps.zip os).countP (fun x => x.2 == v)) : ℚ)))
        = NFloat.finite a)
    (hb : (if (ps.zip os).countP (fun x => x.2 == v) = 0 then NFloat.nan
        else NFloat.finite
          ((((ps.zip os).countP (fun x => decide (tj ≤ x.1) && (x.2 == v))) : ℚ)
            / (((ps.zip os).countP (fun x => x.2 == v)) : ℚ)))
        = NFloat.finite b) : b ≤ a := by
  by_cases hden : (ps.zip os).countP (fun x => x.2 == v) = 0
  · rw [if_pos hden] at ha; cases ha
  · rw [if_neg hden] at ha hb
    injection ha with ha'
    injection hb with hb'
    subst ha'; subst hb'
    have hpos : (0:ℚ) < (((ps.zip os).countP (fun x => x.2 == v)) : ℚ) := by
      exact_mod_cast Nat.pos_of_ne_zero hden
    have hmono : (ps.zip os).countP (fun x => decide (tj ≤ x.1) && (x.2 == v))
        ≤ (ps.zip os).countP (fun x => decide (ti ≤ x.1) && (x.2 == v)) := by
      refine List.countP_mono_left (fun x hx h => ?_)
      simp only [Bool.and_eq_true, decide_eq_true_eq] at h ⊢
      exact ⟨le_trans hle h.1, h.2⟩
    exact (div_le_div_iff_of_pos_right hpos).mpr (Nat.cast_le.mpr hmono)

/-- Claim C6 (counterexample): on the valid one-class ForecastSet
probabilities [1/2], labels [1] (no negative example), the POFD at the
smallest threshold is 0/0 = NaN, not 1, because FP + TN = 0. -/
theorem roc_endpoints_counterexample :
    (get_points_in_roc_curve [1/2] [1] (ThresholdArg.num_thresholds 2)
        (1/10000)).map (fun r => r.1.headD NFloat.nan) = some NFloat.nan
      ∧ NFloat.nan ≠ NFloat.finite 1 := by
  refine ⟨by with_unfolding_all rfl, of_decide_eq_true (by with_unfolding_all rfl)⟩

/-- Claim C6 (amended): for every ForecastSet whose observed labels contain
at least one 1 and at least one 0, the arrays returned by
`get_points_in_roc_curve` satisfy POD = POFD = 1 at the smallest threshold
and POD = POFD = 0 at the largest threshold (which exceeds 1). -/
theorem roc_endpoints_two_class (ps : List ℚ) (os : List ℕ)
    (arg : ThresholdArg) (prec : ℚ) (hne : thresholdArgNonempty arg ps)
    (hpos : 1 ∈ os) (hneg : 0 ∈ os) :
    ∀ pofds pods, get_points_in_roc_curve ps os arg prec
        = some (pofds, pods) →
      pofds.headD NFloat.nan = NFloat.finite 1
        ∧ pods.headD NFloat.nan = NFloat.finite 1
        ∧ pofds.getLastD NFloat.nan = NFloat.finite 0
        ∧ pods.getLastD NFloat.nan = NFloat.finite 0 := by
  intro pofds pods hsome
  obtain ⟨ts, hchk, hth, hr⟩ := roc_points_some_elim ps os arg prec _ hsome
  obtain ⟨htsne, -, htshead, htslast⟩ :=
    thresholds_invariants_aux arg ps prec hne ts hth
  rw [_check_forecast_probs_and_observed_labels] at hchk
  simp only [Bool.and_eq_true, List.all_eq_true, beq_iff_eq,
    decide_eq_true_eq] at hchk
  obtain ⟨⟨hpsb, hlen⟩, -⟩ := hchk
  rw [Prod.mk.injEq] at hr
  obtain ⟨hr1, hr2⟩ := hr
  subst hr1; subst hr2
  have hzero := countP_snd_zip ps os hlen 0
  have hone := countP_snd_zip ps os hlen 1
  have hnegcount : (ps.zip os).countP (fun x => x.2 == 0) ≠ 0 := by
    rw [hzero]
    exact Nat.pos_iff_ne_zero.mp (List.countP_pos_iff.mpr ⟨0, hneg, by simp⟩)
  have hposcount : (ps.zip os).countP (fun x => x.2 == 1) ≠ 0 := by
    rw [hone]
    exact Nat.pos_iff_ne_zero.mp (List.countP_pos_iff.mpr ⟨1, hpos, by simp⟩)
  have hlow : ∀ x ∈ ps.zip os, ts.headD 0 ≤ x.1 := by
    intro x hx
    obtain ⟨x1, x2⟩ := x
    exact le_trans htshead (hpsb x1 (List.of_mem_zip hx).1).1
  have hhigh : ∀ x ∈ ps.zip os, ¬ (ts.getLastD 0 ≤ x.1) := by
    intro x hx hc
    obtain ⟨x1, x2⟩ := x
    have h1 := (hpsb x1 (List.of_mem_zip hx).1).2
    have htol : (0:ℚ) < TOLERANCE := by norm_num [TOLERANCE]
    simp only at hc
    linarith
  have hnum0 : ∀ v : ℕ, (ps.zip os).countP
      (fun x => decide (ts.headD 0 ≤ x.1) && (x.2 == v))
      = (ps.zip os).countP (fun x => x.2 == v) := by
    intro v
    refine List.countP_congr (fun x hx => ?_)
    simp only [Bool.and_eq_true, decide_eq_true_eq]
    exact ⟨fun h => h.2, fun h => ⟨hlow x hx, h⟩⟩
  have hnumz : ∀ v : ℕ, (ps.zip os).countP
      (fun x => decide (ts.getLastD 0 ≤ x.1) && (x.2 == v)) = 0 := by
    intro v
    refine List.countP_eq_zero.mpr (fun x hx => ?_)
    simp only [Bool.and_eq_true, decide_eq_true_eq]
    exact fun h => hhigh x hx h.1
  refine ⟨?_, ?_, ?_, ?_⟩
  · rw [headD_map_ne_nil _ htsne NFloat.nan 0, get_pofd_binarize,
      if_neg hnegcount, hnum0 0]
    congr 1
    exact div_self (by exact_mod_cast hnegcount)
  · rw [headD_map_ne_nil _ htsne NFloat.nan 0, get_pod_binarize,
      if_neg hposcount, hnum0 1]
    congr 1
    exact div_self (by exact_mod_cast hposcount)
  · rw [getLastD_map_ne_nil _ htsne NFloat.nan 0, get_pofd_binarize,
      if_neg hnegcount, hnumz 0]
    congr 1
    norm_num
  · rw [getLastD_map_ne_nil _ htsne NFloat.nan 0, get_pod_binarize,
      if_neg hposcount, hnumz 1]
    congr 1
    norm_num

/-- Claim C6 witness: the amended endpoint property instantiated on the
two-class ForecastSet probabilities [1/2, 1/2], labels [1, 0] with the
count-2 threshold mode, whose curve arrays are [1, 0, 0]. -/
theorem roc_endpoints_two_class_witness :
    ([NFloat.finite 1, NFloat.finite 0, NFloat.finite 0] :
        List NFloat).headD NFloat.nan = NFloat.finite 1
      ∧ ([NFloat.finite 1, NFloat.finite 0, NFloat.finite 0] :
        List NFloat).headD NFloat.nan = NFloat.finite 1
      ∧ ([NFloat.finite 1, NFloat.finite 0, NFloat.finite 0] :
        List NFloat).getLastD NFloat.nan = NFloat.finite 0
      ∧ ([NFloat.finite 1, NFloat.finite 0, NFloat.finite 0] :
        List NFloat).getLastD NFloat.nan = NFloat.finite 0 :=
  roc_endpoints_two_class [1/2, 1/2] [1, 0] (ThresholdArg.num_thresholds 2)
    (1/10000) trivial (by simp) (by simp)
    [NFloat.finite 1, NFloat.finite 0, NFloat.finite 0]
    [NFloat.finite 1, NFloat.finite 0, NFloat.finite 0]
    (by with_unfolding_all rfl)

/-- Claim C7: for every successful run of `get_points_in_roc_curve`, both
returned sequences are non-increasing along the (ascending) threshold
order, wherever two compared entries are finite (entries are NaN only on
one-class data, in which case every entry of that sequence is NaN). -/
theorem roc_curve_threshold_monotone (ps : List ℚ) (os : List ℕ)
    (arg : ThresholdArg) (prec : ℚ) :
    ∀ pofds pods, get_points_in_roc_curve ps os arg prec
        = some (pofds, pods) →
      ∀ i j : ℕ, i ≤ j →
        (∀ a b, pofds.get? i = some (NFloat.finite a) →
          pofds.get? j = some (NFloat.finite b) → b ≤ a)
        ∧ (∀ a b, pods.get? i = some (NFloat.finite a) →
          pods.get? j = some (NFloat.finite b) → b ≤ a) := by
  intro pofds pods hsome i j hij
  obtain ⟨ts, hchk, hth, hr⟩ := roc_points_some_elim ps os arg prec _ hsome
  have hsort := thresholds_sorted arg ps prec ts hth
  rw [Prod.mk.injEq] at hr
  obtain ⟨hr1, hr2⟩ := hr
  subst hr1; subst hr2
  constructor
  · intro a b ha hb
    rw [List.get?_map] at ha hb
    obtain ⟨ti, hti, hfi⟩ := Option.map_eq_some'.mp ha
    obtain ⟨tj, htj, hfj⟩ := Option.map_eq_some'.mp hb
    have htij := sorted_get?_le ts hsort i j hij ti tj hti htj
    rw [get_pofd_binarize] at hfi hfj
    exact ratio_antitone_of_le ps os 0 ti tj htij a b hfi hfj
  · intro a b ha hb
    rw [List.get?_map] at ha hb
    obtain ⟨ti, hti, hfi⟩ := Option.map_eq_some'.mp ha
    obtain ⟨tj, htj, hfj⟩ := Option.map_eq_some'.mp hb
    have htij := sorted_get?_le ts hsort i j hij ti tj hti htj
    rw [get_pod_binarize] at hfi hfj
    exact ratio_antitone_of_le ps os 1 ti tj htij a b hfi hfj

/-- Claim C7 witness: the monotonicity applied to the ForecastSet
probabilities [1/2, 1/2], labels [1, 0] (curves [1, 0, 0]) at threshold
indices 0 and 1, giving 0 <= 1 for both POFD and POD. -/
theorem roc_curve_threshold_monotone_witness :
    (0 : ℚ) ≤ 1 ∧ (0 : ℚ) ≤ 1 :=
  ⟨(roc_curve_threshold_monotone [1/2, 1/2] [1, 0]
      (ThresholdArg.num_thresholds 2) (1/10000)
      [NFloat.finite 1, NFloat.finite 0, NFloat.finite 0]
      [NFloat.finite 1, NFloat.finite 0, NFloat.finite 0]
      (by with_unfolding_all rfl) 0 1 (by decide)).1 1 0 rfl rfl,
   (roc_curve_threshold_monotone [1/2, 1/2] [1, 0]
      (ThresholdArg.num_thresholds 2) (1/10000)
      [NFloat.finite 1, NFloat.finite 0, NFloat.finite 0]
      [NFloat.finite 1, NFloat.finite 0, NFloat.finite 0]
      (by with_unfolding_all rfl) 0 1 (by decide)).2 1 0 rfl rfl⟩

/-- Helper: reciprocal of (positive) float zero is +inf. -/
theorem NFloat.inv_finite_zero : NFloat.inv (NFloat.finite 0) = NFloat.posInf := by
  simp [NFloat.inv, NFloat.div]

/-- Helper: reciprocal of a nonzero finite float. -/
theorem NFloat.inv_finite_ne (q : ℚ) (h : q ≠ 0) :
    NFloat.inv (NFloat.finite q) = NFloat.finite (1 / q) := by
  simp [NFloat.inv, NFloat.div, h]

/-- Helper: sum of finite floats. -/
theorem NFloat.add_finite (p q : ℚ) :
    NFloat.add (NFloat.finite p) (NFloat.finite q) = NFloat.finite (p + q) := rfl

/-- Helper: difference of finite floats. -/
theorem NFloat.sub_finite (p q : ℚ) :
    NFloat.sub (NFloat.finite p) (NFloat.finite q) = NFloat.finite (p - q) := by
  simp [NFloat.sub, NFloat.neg, NFloat.add, sub_eq_add_neg]

/-- Helper: the success ratio always passes the [0,1]-or-NaN validation. -/
theorem validProb_get_success_ratio (t : ContingencyTable) :
    NFloat.validProb (get_success_ratio t) = true := by
  rw [get_success_ratio]
  split
  · rfl
  · rename_i h
    have hpos : (0:ℚ) < (t.num_true_positives : ℚ)
        + (t.num_false_positives : ℚ) := by
      exact_mod_cast Nat.pos_of_ne_zero h
    simp only [NFloat.validProb, Bool.and_eq_true, decide_eq_true_eq]
    exact ⟨div_nonneg (Nat.cast_nonneg _) (le_of_lt hpos),
      (div_le_one hpos).mpr (le_add_of_nonneg_right (Nat.cast_nonneg _))⟩

/-- Helper: POD always passes the [0,1]-or-NaN validation. -/
theorem validProb_get_pod (t : ContingencyTable) :
    NFloat.validProb (get_pod t) = true := by
  rw [get_pod]
  split
  · rfl
  · rename_i h
    have hpos : (0:ℚ) < (t.num_true_positives : ℚ)
        + (t.num_false_negatives : ℚ) := by
      exact_mod_cast Nat.pos_of_ne_zero h
    simp only [NFloat.validProb, Bool.and_eq_true, decide_eq_true_eq]
    exact ⟨div_nonneg (Nat.cast_nonneg _) (le_of_lt hpos),
      (div_le_one hpos).mpr (le_add_of_nonneg_right (Nat.cast_nonneg _))⟩

/-- Claim C8 (amended): on every contingency table whose success ratio and
POD are both defined (TP+FP >= 1 and TP+FN >= 1; N >= 1 follows),
`csi_from_sr_and_pod` applied to (success ratio, POD) agrees exactly with
`get_csi` — under numpy IEEE semantics this includes TP = 0, where both
sides are 0 via intermediate infinities. -/
theorem csi_consistency_defined (t : ContingencyTable)
    (hsr : t.num_true_positives + t.num_false_positives ≠ 0)
    (hpod : t.num_true_positives + t.num_false_negatives ≠ 0) :
    csi_from_sr_and_pod [get_success_ratio t] [get_pod t]
      = some [get_csi t] := by
  obtain ⟨a, b, c, d⟩ := t
  dsimp only at hsr hpod
  rw [csi_from_sr_and_pod, if_pos (by
    simp [validProb_get_success_ratio, validProb_get_pod])]
  have hsr_eq : get_success_ratio ⟨a, b, c, d⟩
      = NFloat.finite ((a:ℚ)/((a:ℚ)+(b:ℚ))) := by
    rw [get_success_ratio, if_neg hsr]
  have hpod_eq : get_pod ⟨a, b, c, d⟩
      = NFloat.finite ((a:ℚ)/((a:ℚ)+(c:ℚ))) := by
    rw [get_pod, if_neg hpod]
  have hbQ : (0:ℚ) < (a:ℚ) + (b:ℚ) := by exact_mod_cast Nat.pos_of_ne_zero hsr
  have hcQ : (0:ℚ) < (a:ℚ) + (c:ℚ) := by exact_mod_cast Nat.pos_of_ne_zero hpod
  have hcsi_ne : a + b + c ≠ 0 := by omega
  have hcsi_eq : get_csi ⟨a, b, c, d⟩
      = NFloat.finite ((a:ℚ)/((a:ℚ)+(b:ℚ)+(c:ℚ))) := by
    rw [get_csi, if_neg hcsi_ne]
  rw [hsr_eq, hpod_eq, hcsi_eq]
  simp only [List.zipWith_cons_cons, List.zipWith_nil_right, Option.some.injEq,
    List.cons.injEq, and_true]
  by_cases ha : a = 0
  · subst ha
    have hb0 : (0:ℚ)/((0:ℚ)+(b:ℚ)) = 0 := by rw [zero_div]
    have hc0 : (0:ℚ)/((0:ℚ)+(c:ℚ)) = 0 := by rw [zero_div]
    simp only [Nat.cast_zero, hb0, hc0, NFloat.inv_finite_zero]
    rw [show NFloat.add NFloat.posInf NFloat.posInf = NFloat.posInf from rfl,
      show NFloat.sub NFloat.posInf (NFloat.finite 1) = NFloat.posInf from rfl,
      show NFloat.inv NFloat.posInf = NFloat.finite 0 from rfl]
    rw [zero_div]
  · have haQ : (0:ℚ) < (a:ℚ) := by
      exact_mod_cast Nat.pos_of_ne_zero ha
    have hsr_ne : (a:ℚ)/((a:ℚ)+(b:ℚ)) ≠ 0 :=
      div_ne_zero (ne_of_gt haQ) (ne_of_gt hbQ)
    have hpod_ne : (a:ℚ)/((a:ℚ)+(c:ℚ)) ≠ 0 :=
      div_ne_zero (ne_of_gt haQ) (ne_of_gt hcQ)
    rw [NFloat.inv_finite_ne _ hsr_ne, NFloat.inv_finite_ne _ hpod_ne,
      NFloat.add_finite, NFloat.sub_finite]
    have hX : 1/((a:ℚ)/((a:ℚ)+(b:ℚ))) + 1/((a:ℚ)/((a:ℚ)+(c:ℚ))) - 1
        = ((a:ℚ)+(b:ℚ)+(c:ℚ))/(a:ℚ) := by
      field_simp
      ring
    rw [hX]
    have habcQ : (0:ℚ) < (a:ℚ)+(b:ℚ)+(c:ℚ) := by linarith
    have hX_ne : ((a:ℚ)+(b:ℚ)+(c:ℚ))/(a:ℚ) ≠ 0 :=
      div_ne_zero (ne_of_gt habcQ) (ne_of_gt haQ)
    rw [NFloat.inv_finite_ne _ hX_ne]
    rw [one_div_div]

/-- Claim C8 witness: the amended agreement instantiated on the table
TP=1, FP=1, FN=1, TN=1, where both sides are 1/3. -/
theorem csi_consistency_defined_witness :
    csi_from_sr_and_pod [get_success_ratio ⟨1, 1, 1, 1⟩] [get_pod ⟨1, 1, 1, 1⟩]
      = some [get_csi ⟨1, 1, 1, 1⟩] :=
  csi_consistency_defined ⟨1, 1, 1, 1⟩ (by decide) (by decide)

/-- Helper: the descending sort order is total. -/
theorem descLe_total (a b : NFloat) :
    NFloat.descLe a b = true ∨ NFloat.descLe b a = true := by
  cases a <;> cases b <;>
    simp [NFloat.descLe, NFloat.descRank] <;> exact le_total _ _

/-- Helper: the descending sort order is transitive. -/
theorem descLe_trans (a b c : NFloat) (h1 : NFloat.descLe a b = true)
    (h2 : NFloat.descLe b c = true) : NFloat.descLe a c = true := by
  cases a <;> cases b <;> cases c <;>
    simp_all [NFloat.descLe, NFloat.descRank] <;> linarith

/-- Helper: along a list of pairs that is pairwise descending in its first
components (all finite), consecutive first-component differences are
non-positive. -/
theorem desc_pairs_diff_nonpos : ∀ (l : List (NFloat × NFloat)),
    l.Pairwise (fun p q => NFloat.descLe p.1 q.1 = true) →
    (∀ p ∈ l, ∃ q1, p.1 = NFloat.finite q1) →
    (((l.map (fun p => p.1.toQ)).zip
        (l.map (fun p => p.1.toQ)).tail).map
      (fun p => p.2 - p.1)).all (fun d => decide (d ≤ 0)) = true
  | [], _, _ => rfl
  | [_], _, _ => rfl
  | x :: y :: rest, hpw, hfin => by
    have hxy : NFloat.descLe x.1 y.1 = true :=
      (List.pairwise_cons.mp hpw).1 y (List.mem_cons_self y rest)
    obtain ⟨qx, hqx⟩ := hfin x (List.mem_cons_self x (y :: rest))
    obtain ⟨qy, hqy⟩ := hfin y (List.mem_cons
      |>.mpr (Or.inr (List.mem_cons_self y rest)))
    have hle : qy ≤ qx := by
      rw [hqx, hqy] at hxy
      simpa [NFloat.descLe] using hxy
    have ih := desc_pairs_diff_nonpos (y :: rest)
      (List.pairwise_cons.mp hpw).2
      (fun p hp => hfin p (List.mem_cons.mpr (Or.inr hp)))
    simp only [List.map_cons, List.tail_cons, List.zip_cons_cons,
      List.all_cons, Bool.and_eq_true, decide_eq_true_eq] at ih ⊢
    constructor
    · rw [hqx, hqy]
      simp only [NFloat.toQ]
      linarith
    · exact ih

/-- Helper: `sklearn_metrics_auc` succeeds on at least two points whose
x-differences are all non-positive. -/
theorem sklearn_ok_of_all_nonpos (x y : List ℚ) (hlen2 : ¬ (x.length < 2))
    (hall : ((x.zip x.tail).map (fun p => p.2 - p.1)).all
      (fun d => decide (d ≤ 0)) = true) :
    ∃ q, sklearn_metrics_auc x y = Except.ok q := by
  rw [sklearn_metrics_auc, if_neg hlen2]
  by_cases hany : (((x.zip x.tail).map (fun p => p.2 - p.1)).any
      (fun d => decide (d < 0))) = true
  · rw [if_pos hany, if_pos hall]
    exact ⟨_, rfl⟩
  · rw [if_neg hany]
    exact ⟨_, rfl⟩

/-- Claim C9 (amended): for valid inputs, `get_area_under_roc_curve`
returns NaN exactly when every point has a NaN coordinate, and when at
least two points are non-NaN it returns a finite trapezoidal integral
without raising.  (With exactly one non-NaN point, the call raises: see the
counterexample.) -/
theorem auc_nan_policy (pofd pod : List NFloat)
    (hpofd : pofd.all NFloat.validProb = true)
    (hpod : pod.all NFloat.validProb = true)
    (hlen : pod.length = pofd.length) :
    (get_area_under_roc_curve pofd pod = Except.ok NFloat.nan
      ↔ ∀ p ∈ pofd.zip pod, p.1 = NFloat.nan ∨ p.2 = NFloat.nan)
    ∧ (2 ≤ ((pofd.zip pod).filter
          (fun p => !(p.1 == NFloat.nan) && !(p.2 == NFloat.nan))).length →
        ∃ q, get_area_under_roc_curve pofd pod
          = Except.ok (NFloat.finite q)) := by
  haveI hTot : IsTotal (NFloat × NFloat)
      (fun p q => NFloat.descLe p.1 q.1 = true) :=
    ⟨fun p q => descLe_total p.1 q.1⟩
  haveI hTrans : IsTrans (NFloat × NFloat)
      (fun p q => NFloat.descLe p.1 q.1 = true) :=
    ⟨fun p q r h1 h2 => descLe_trans _ _ _ h1 h2⟩
  have hguard : (pofd.all NFloat.validProb && pod.all NFloat.validProb
      && (pod.length == pofd.length)) = true := by
    simp [hpofd, hpod, hlen]
  have hdef : get_area_under_roc_curve pofd pod
      = (if ((pofd.zip pod).insertionSort
            (fun p q => NFloat.descLe p.1 q.1 = true)).all
            (fun p => p.1 == NFloat.nan || p.2 == NFloat.nan) then
          Except.ok NFloat.nan
        else
          Except.map (fun a => NFloat.finite a)
            (sklearn_metrics_auc
              ((((pofd.zip pod).insertionSort
                  (fun p q => NFloat.descLe p.1 q.1 = true)).filter
                (fun p => !(p.1 == NFloat.nan)
                  && !(p.2 == NFloat.nan))).map (fun p => p.1.toQ))
              ((((pofd.zip pod).insertionSort
                  (fun p q => NFloat.descLe p.1 q.1 = true)).filter
                (fun p => !(p.1 == NFloat.nan)
                  && !(p.2 == NFloat.nan))).map (fun p => p.2.toQ)))) := by
    rw [get_area_under_roc_curve, if_pos hguard]
  have hperm := List.perm_insertionSort
    (fun (p q : NFloat × NFloat) => NFloat.descLe p.1 q.1 = true)
    (pofd.zip pod)
  have hsorted := List.sorted_insertionSort
    (fun (p q : NFloat × NFloat) => NFloat.descLe p.1 q.1 = true)
    (pofd.zip pod)
  have hallIff : (((pofd.zip pod).insertionSort
        (fun p q => NFloat.descLe p.1 q.1 = true)).all
        (fun p => p.1 == NFloat.nan || p.2 == NFloat.nan)) = true
      ↔ ∀ p ∈ pofd.zip pod, p.1 = NFloat.nan ∨ p.2 = NFloat.nan := by
    rw [List.all_eq_true]
    constructor
    · intro h p hp
      have := h p (hperm.mem_iff.mpr hp)
      simpa using this
    · intro h p hp
      have := h p (hperm.mem_iff.mp hp)
      simpa using this
  have hfiltlen : ((((pofd.zip pod).insertionSort
        (fun p q => NFloat.descLe p.1 q.1 = true)).filter
        (fun p => !(p.1 == NFloat.nan) && !(p.2 == NFloat.nan))).length)
      = (((pofd.zip pod).filter
        (fun p => !(p.1 == NFloat.nan) && !(p.2 == NFloat.nan))).length) :=
    (hperm.filter _).length_eq
  constructor
  · rw [hdef]
    by_cases hall : (((pofd.zip pod).insertionSort
        (fun p q => NFloat.descLe p.1 q.1 = true)).all
        (fun p => p.1 == NFloat.nan || p.2 == NFloat.nan)) = true
    · rw [if_pos hall]
      exact ⟨fun _ => hallIff.mp hall, fun _ => rfl⟩
    · rw [if_neg hall]
      constructor
      · intro hres
        exfalso
        cases hX : sklearn_metrics_auc
            ((((pofd.zip pod).insertionSort
                (fun p q => NFloat.descLe p.1 q.1 = true)).filter
              (fun p => !(p.1 == NFloat.nan)
                && !(p.2 == NFloat.nan))).map (fun p => p.1.toQ))
            ((((pofd.zip pod).insertionSort
                (fun p q => NFloat.descLe p.1 q.1 = true)).filter
              (fun p => !(p.1 == NFloat.nan)
                && !(p.2 == NFloat.nan))).map (fun p => p.2.toQ)) with
        | error e => rw [hX] at hres; cases hres
        | ok q =>
          rw [hX] at hres
          injection hres with hq
          exact NFloat.noConfusion hq
      · intro hforall
        exact absurd (hallIff.mpr hforall) hall
  · intro h2
    have hallF : ¬ ((((pofd.zip pod).insertionSort
        (fun p q => NFloat.descLe p.1 q.1 = true)).all
        (fun p => p.1 == NFloat.nan || p.2 == NFloat.nan)) = true) := by
      intro hall
      have hzero : ((((pofd.zip pod).insertionSort
          (fun p q => NFloat.descLe p.1 q.1 = true)).filter
          (fun p => !(p.1 == NFloat.nan)
            && !(p.2 == NFloat.nan))).length) = 0 := by
        rw [List.length_eq_zero, List.filter_eq_nil_iff]
        intro p hp
        have hbad := (List.all_eq_true.mp hall) p hp
        simp only [Bool.or_eq_true, beq_iff_eq] at hbad
        simp only [Bool.and_eq_true, Bool.not_eq_true', beq_eq_false_iff_ne,
          ne_eq, not_and]
        intro h1n h2n
        rcases hbad with h | h
        · exact absurd h h1n
        · exact absurd h h2n
      rw [hfiltlen] at hzero
      omega
    rw [hdef, if_neg hallF]
    have hlenreal : ((((pofd.zip pod).insertionSort
        (fun p q => NFloat.descLe p.1 q.1 = true)).filter
        (fun p => !(p.1 == NFloat.nan)
          && !(p.2 == NFloat.nan))).map (fun p => p.1.toQ)).length
        = ((pofd.zip pod).filter
          (fun p => !(p.1 == NFloat.nan) && !(p.2 == NFloat.nan))).length := by
      rw [List.length_map]
      exact hfiltlen
    have hpwreal : (((pofd.zip pod).insertionSort
        (fun p q => NFloat.descLe p.1 q.1 = true)).filter
        (fun p => !(p.1 == NFloat.nan) && !(p.2 == NFloat.nan))).Pairwise
        (fun p q => NFloat.descLe p.1 q.1 = true) :=
      List.Pairwise.sublist (List.filter_sublist _) hsorted
    have hfinreal : ∀ p ∈ (((pofd.zip pod).insertionSort
        (fun p q => NFloat.descLe p.1 q.1 = true)).filter
        (fun p => !(p.1 == NFloat.nan) && !(p.2 == NFloat.nan))),
        ∃ q1, p.1 = NFloat.finite q1 := by
      intro p hp
      have hgood := List.of_mem_filter hp
      have hpmem : p ∈ pofd.zip pod :=
        hperm.mem_iff.mp (List.mem_of_mem_filter hp)
      obtain ⟨p1, p2⟩ := p
      have hp1 : p1 ∈ pofd := (List.of_mem_zip hpmem).1
      have hv := (List.all_eq_true.mp hpofd) p1 hp1
      cases p1 with
      | nan => simp at hgood
      | finite q => exact ⟨q, rfl⟩
      | negInf => simp [NFloat.validProb] at hv
      | posInf => simp [NFloat.validProb] at hv
    have hdx := desc_pairs_diff_nonpos _ hpwreal hfinreal
    obtain ⟨q, hq⟩ := sklearn_ok_of_all_nonpos _
      ((((pofd.zip pod).insertionSort
        (fun p q => NFloat.descLe p.1 q.1 = true)).filter
        (fun p => !(p.1 == NFloat.nan)
          && !(p.2 == NFloat.nan))).map (fun p => p.2.toQ))
      (by rw [hlenreal]; omega) hdx
    rw [hq]
    exact ⟨q, rfl⟩

/-- Claim C9 witness: the NaN policy instantiated on the valid two-point
input POFD = [1, 0], POD = [1, 0]. -/
theorem auc_nan_policy_witness :
    (get_area_under_roc_curve [NFloat.finite 1, NFloat.finite 0]
        [NFloat.finite 1, NFloat.finite 0] = Except.ok NFloat.nan
      ↔ ∀ p ∈ ([NFloat.finite 1, NFloat.finite 0].zip
          [NFloat.finite 1, NFloat.finite 0]),
        p.1 = NFloat.nan ∨ p.2 = NFloat.nan)
    ∧ (2 ≤ (([NFloat.finite 1, NFloat.finite 0].zip
          [NFloat.finite 1, NFloat.finite 0]).filter
          (fun p => !(p.1 == NFloat.nan) && !(p.2 == NFloat.nan))).length →
        ∃ q, get_area_under_roc_curve [NFloat.finite 1, NFloat.finite 0]
          [NFloat.finite 1, NFloat.finite 0]
          = Except.ok (NFloat.finite q)) :=
  auc_nan_policy [NFloat.finite 1, NFloat.finite 0]
    [NFloat.finite 1, NFloat.finite 0] (by with_unfolding_all rfl)
    (by with_unfolding_all rfl) rfl

end ModelEvaluation

